import Mathlib

/-!
Verification of the periodic task runner `run` (src/main.go, lines 83-115)

The Go function

    func run(fn ScheduleFunction, sleep time.Duration)

subscribes a one-slot channel to five signals, defers `signal.Stop`, and then
loops forever: at each pass it either receives a pending signal and calls
`os.Exit(0)`, or invokes `fn(i)`, panics on an error, and sleeps.

The embedding is a state machine.  One call of `iterate` is one pass through
the body of the `for` loop; `run ... n` is the state reached after `n` passes.
Signals arrive asynchronously, so their arrival is an input of the model
(`Env`).  The observable actions are recorded in an event trace.
-/

namespace Scheduler

/-- Go `time.Duration`: a signed count of nanoseconds. -/
abbrev Duration := Int

/-- Go `error` values, identified by their message. -/
abbrev GoError := String

/-- Width of the Go type `int` on the 64-bit targets. -/
def intBits : Nat := 64

/-- Two's complement wrap-around of Go `int` arithmetic. -/
def wrapInt (x : Int) : Int :=
  (x + 2 ^ (intBits - 1)) % 2 ^ intBits - 2 ^ (intBits - 1)

/-- Signals a process can be sent; the first five are those named in `run`. -/
inductive Signal where
  | SIGHUP
  | SIGQUIT
  | SIGTERM
  | SIGINT
  | SIGSEGV
  | SIGUSR1
  | SIGUSR2
  | SIGPIPE
  deriving DecidableEq

/-- The Go type `ScheduleFunction func(iteration int) (*time.Duration, error)`.
A Go closure may carry state of its own, so the callback threads a state `σ`;
it returns the new state, the optional sleep override and the optional error. -/
abbrev ScheduleFunction (σ : Type) := σ → Int → σ × Option Duration × Option GoError

/-- Observable actions of `run`, in the order they happen. -/
inductive Event where
  /-- `signal.Notify(c, sigs...)` (line 93). -/
  | notify (sigs : List Signal)
  /-- The call `fn(i)` (line 103) together with what it returned. -/
  | invoke (iteration : Int) (fnSleep : Option Duration) (err : Option GoError)
  /-- The call `time.Sleep(d)` (lines 109 and 111). -/
  | sleep (d : Duration)
  /-- The deferred `signal.Stop(c)` (line 95). -/
  | stop
  /-- The call `os.Exit(code)` (line 101). -/
  | exit (code : Int)
  /-- The call `panic(err)` (line 105). -/
  | panic (e : GoError)
  deriving DecidableEq

/-- Where control is. `returned` stands for a normal return to the caller. -/
inductive Status where
  | running
  | exited (code : Int)
  | panicked (e : GoError)
  | returned
  deriving DecidableEq

/-- Asynchronous signal arrivals: those delivered between `signal.Notify` and
the first pass of the loop, those delivered while the `k`-th call of `fn` is in
flight, and those delivered during the sleep that follows the `k`-th call. -/
structure Env where
  atStart : List Signal
  duringCall : Nat → List Signal
  duringSleep : Nat → List Signal

/-- State of an execution of `run`. -/
structure RunState (σ : Type) where
  /-- The loop variable `i`. -/
  i : Int
  /-- Number of calls of `fn` started so far (ghost, indexes `Env`). -/
  calls : Nat
  /-- State carried by the callback. -/
  task : σ
  /-- Contents of the channel `c`, which has capacity 1. -/
  chan : Option Signal
  /-- Signals currently relayed to `c`; empty once `signal.Stop(c)` has run. -/
  handlers : List Signal
  trace : List Event
  status : Status

/-- The arguments of `signal.Notify` on line 93. -/
def notifySignals : List Signal :=
  [Signal.SIGHUP, Signal.SIGQUIT, Signal.SIGTERM, Signal.SIGINT, Signal.SIGSEGV]

/-- Non-blocking send on the one-slot channel: dropped when the slot is full. -/
def send (chan : Option Signal) (s : Signal) : Option Signal :=
  match chan with
  | none => some s
  | some x => some x

/-- Arrival of one signal: relayed to the channel only when subscribed. -/
def deliver (handlers : List Signal) (chan : Option Signal) (s : Signal) : Option Signal :=
  if s ∈ handlers then send chan s else chan

/-- Arrival of several signals in order. -/
def deliverAll (handlers : List Signal) (chan : Option Signal) (sigs : List Signal) :
    Option Signal :=
  sigs.foldl (deliver handlers) chan

/-- Lines 92-96 and the loop initialisation `i := 1`: the state in which the
loop is entered for the first time. -/
def start {σ : Type} (t0 : σ) (env : Env) : RunState σ :=
  { i := 1
    calls := 0
    task := t0
    chan := deliverAll notifySignals none env.atStart
    handlers := notifySignals
    trace := [Event.notify notifySignals]
    status := Status.running }

/-- One pass through the body of the `for` loop (lines 98-114).

* `case <-c: os.Exit(0)`: the process ends at once; `os.Exit` does not run
  deferred functions, so `signal.Stop` is not called.
* `default`: `fn(i)` is called; on an error `panic(err)` unwinds `run`, which
  runs the deferred `signal.Stop(c)`; otherwise `time.Sleep` is called with the
  override or with `sleep`, and the post statement `i++` is executed. -/
def iterate {σ : Type} (fn : ScheduleFunction σ) (sleep : Duration) (env : Env)
    (s : RunState σ) : RunState σ :=
  match s.status with
  | Status.running =>
    match s.chan with
    | some _ =>
      { s with
        chan := none
        trace := s.trace ++ [Event.exit 0]
        status := Status.exited 0 }
    | none =>
      let r := fn s.task s.i
      let k := s.calls + 1
      let chan1 := deliverAll s.handlers s.chan (env.duringCall k)
      match r.2.2 with
      | some e =>
        { s with
          calls := k
          task := r.1
          chan := chan1
          handlers := []
          trace := s.trace ++ [Event.invoke s.i r.2.1 (some e), Event.panic e, Event.stop]
          status := Status.panicked e }
      | none =>
        let d := match r.2.1 with
          | some o => o
          | none => sleep
        { s with
          i := wrapInt (s.i + 1)
          calls := k
          task := r.1
          chan := deliverAll s.handlers chan1 (env.duringSleep k)
          trace := s.trace ++ [Event.invoke s.i r.2.1 none, Event.sleep d] }
  | _ => s

/-- The state of `run(fn, sleep)` after `n` passes of the loop. -/
def run {σ : Type} (fn : ScheduleFunction σ) (sleep : Duration) (t0 : σ) (env : Env) :
    Nat → RunState σ
  | 0 => start t0 env
  | n + 1 => iterate fn sleep env (run fn sleep t0 env n)

/-- The iteration values passed to `fn`, in call order. -/
def invocations : List Event → List Int
  | [] => []
  | Event.invoke a _ _ :: t => a :: invocations t
  | _ :: t => invocations t

/-- An environment in which no signal ever arrives. -/
def quietEnv : Env :=
  { atStart := []
    duringCall := fun _ => []
    duringSleep := fun _ => [] }

/-- The callback of `main` (lines 58-63) as far as `run` sees it: it always
returns `nil, nil`. -/
def mainTask : ScheduleFunction Unit := fun _ _ => ((), none, none)

/-- One second in nanoseconds (`time.Second`). -/
def second : Duration := 1000000000

/-- One millisecond in nanoseconds (`time.Millisecond`). -/
def millisecond : Duration := 1000000

/-- Events of consecutive completed iterations, the first of them being call
number `k`, whose calls returned the overrides listed in `l`. -/
def blocks (sleep : Duration) : Nat → List (Option Duration) → List Event
  | _, [] => []
  | k, r :: l =>
    Event.invoke (wrapInt k) r none :: Event.sleep (r.getD sleep) :: blocks sleep (k + 1) l

/-- Shape of every reachable state: the trace is the subscription, then the
completed iterations, then the events of the way the loop ended, if it did. -/
def Inv {σ : Type} (sleep : Duration) (s : RunState σ) : Prop :=
  ∃ l : List (Option Duration),
    (s.status = Status.running ∧ s.calls = l.length ∧ s.i = wrapInt (l.length + 1) ∧
      s.handlers = notifySignals ∧
      s.trace = Event.notify notifySignals :: blocks sleep 1 l) ∨
    (s.status = Status.exited 0 ∧ s.calls = l.length ∧ s.handlers = notifySignals ∧
      s.trace = Event.notify notifySignals :: (blocks sleep 1 l ++ [Event.exit 0])) ∨
    (∃ r e, s.status = Status.panicked e ∧ s.calls = l.length + 1 ∧ s.handlers = [] ∧
      s.trace = Event.notify notifySignals ::
        (blocks sleep 1 l ++
          [Event.invoke (wrapInt (l.length + 1)) r (some e), Event.panic e, Event.stop]))

/-- No subscribed signal ever arrives. -/
def Silent (env : Env) : Prop :=
  (∀ s ∈ env.atStart, s ∉ notifySignals) ∧
  ∀ k : Nat, (∀ s ∈ env.duringCall k, s ∉ notifySignals) ∧
    (∀ s ∈ env.duringSleep k, s ∉ notifySignals)

/-- The ways the events of the loop can end after `m` completed iterations:
still running, `os.Exit(0)`, or the failing call `m + 1` with its panic. -/
def Ending (m : Nat) (fin : List Event) : Prop :=
  fin = [] ∨ fin = [Event.exit 0] ∨
    ∃ r e, fin = [Event.invoke (wrapInt ((m : Nat) : Int)) r (some e), Event.panic e, Event.stop]

/-- The callback of the override scenario: it returns the override 200ms on
iteration 1 and `nil, nil` on every other iteration. -/
def overrideOnce : ScheduleFunction Unit := fun _ i =>
  if i = 1 then ((), some (200 * millisecond), none) else ((), none, none)

/-- An environment whose only signal is `sig`, arriving during the sleep that
follows call number `k`. -/
def signalDuringSleep (sig : Signal) (k : Nat) : Env :=
  { atStart := []
    duringCall := fun _ => []
    duringSleep := fun j => if j = k then [sig] else [] }

/-- An environment whose only signal is `sig`, arriving while call number `k` of
the callback is in flight. -/
def signalDuringCall (sig : Signal) (k : Nat) : Env :=
  { atStart := []
    duringCall := fun j => if j = k then [sig] else []
    duringSleep := fun _ => [] }

/-- An environment whose only signal is `sig`, arriving after the subscription
and before the first pass of the loop. -/
def signalAtStart (sig : Signal) : Env :=
  { atStart := [sig]
    duringCall := fun _ => []
    duringSleep := fun _ => [] }

/-- A callback that succeeds twice and fails on iteration 3, returning a
duration together with the error. -/
def failOnThird : ScheduleFunction Unit := fun _ i =>
  if i = 3 then ((), some (5 * second), some "boom") else ((), none, none)

/-- The part of the state that decides what the loop does next. -/
def control {σ : Type} (s : RunState σ) :
    Int × Nat × σ × Option Signal × List Signal × Status :=
  (s.i, s.calls, s.task, s.chan, s.handlers, s.status)

/-- A callback that always returns a negative override. -/
def negativeOverride : ScheduleFunction Unit := fun _ _ => ((), some (-3), none)

/-- The callback `fn` instrumented to keep, next to its own state, the list of
the iteration values it has been called with, oldest first. It returns what
`fn` returns. -/
def recording {σ : Type} (fn : ScheduleFunction σ) : ScheduleFunction (σ × List Int) :=
  fun st i => (((fn st.1 i).1, st.2 ++ [i]), (fn st.1 i).2)

/-- The run with the instrumented callback and the run with the callback itself
are in the same state, up to the recorded list. -/
def Sim {σ : Type} (s' : RunState (σ × List Int)) (s : RunState σ) : Prop :=
  s'.i = s.i ∧ s'.calls = s.calls ∧ s'.task.1 = s.task ∧ s'.chan = s.chan ∧
    s'.handlers = s.handlers ∧ s'.trace = s.trace ∧ s'.status = s.status

end Scheduler

namespace Scheduler

theorem wrapInt_of_lt (x : Int) (h0 : -(2 ^ 63) ≤ x) (h1 : x < 2 ^ 63) : wrapInt x = x := by
  unfold wrapInt intBits
  norm_num at h0 h1 ⊢
  omega

theorem wrapInt_succ (x : Int) : wrapInt (wrapInt x + 1) = wrapInt (x + 1) := by
  unfold wrapInt intBits
  norm_num
  omega

theorem wrapInt_one : wrapInt 1 = 1 := by decide

theorem blocks_snoc (sleep : Duration) (l : List (Option Duration)) (r : Option Duration) :
    ∀ k : Nat, blocks sleep k (l ++ [r]) =
      blocks sleep k l ++
        [Event.invoke (wrapInt ((k + l.length : Nat) : Int)) r none,
         Event.sleep (r.getD sleep)] := by
  induction l with
  | nil => intro k; simp [blocks]
  | cons a t ih =>
    intro k
    have h : k + 1 + t.length = k + (t.length + 1) := by omega
    simp [blocks, ih, h]

theorem iterate_done {σ : Type} (fn : ScheduleFunction σ) (sleep : Duration) (env : Env)
    (s : RunState σ) (h : s.status ≠ Status.running) : iterate fn sleep env s = s := by
  unfold iterate
  split
  · contradiction
  · rfl

theorem iterate_exit {σ : Type} (fn : ScheduleFunction σ) (sleep : Duration) (env : Env)
    (s : RunState σ) (h : s.status = Status.running) (x : Signal) (hc : s.chan = some x) :
    iterate fn sleep env s =
      { s with chan := none, trace := s.trace ++ [Event.exit 0], status := Status.exited 0 } := by
  unfold iterate
  simp [h, hc]

theorem iterate_fail {σ : Type} (fn : ScheduleFunction σ) (sleep : Duration) (env : Env)
    (s : RunState σ) (h : s.status = Status.running) (hc : s.chan = none) (e : GoError)
    (he : (fn s.task s.i).2.2 = some e) :
    iterate fn sleep env s =
      { s with
        calls := s.calls + 1
        task := (fn s.task s.i).1
        chan := deliverAll s.handlers none (env.duringCall (s.calls + 1))
        handlers := []
        trace := s.trace ++
          [Event.invoke s.i (fn s.task s.i).2.1 (some e), Event.panic e, Event.stop]
        status := Status.panicked e } := by
  unfold iterate
  simp [h, hc, he]

theorem iterate_ok {σ : Type} (fn : ScheduleFunction σ) (sleep : Duration) (env : Env)
    (s : RunState σ) (h : s.status = Status.running) (hc : s.chan = none)
    (he : (fn s.task s.i).2.2 = none) :
    iterate fn sleep env s =
      { s with
        i := wrapInt (s.i + 1)
        calls := s.calls + 1
        task := (fn s.task s.i).1
        chan := deliverAll s.handlers
          (deliverAll s.handlers none (env.duringCall (s.calls + 1)))
          (env.duringSleep (s.calls + 1))
        trace := s.trace ++
          [Event.invoke s.i (fn s.task s.i).2.1 none,
           Event.sleep ((fn s.task s.i).2.1.getD sleep)] } := by
  unfold iterate
  simp only [h, hc, he]
  cases (fn s.task s.i).2.1 <;> rfl

theorem inv_start {σ : Type} (sleep : Duration) (t0 : σ) (env : Env) :
    Inv sleep (start t0 env) := by
  refine ⟨[], Or.inl ⟨rfl, rfl, ?_, rfl, rfl⟩⟩
  simp [start, wrapInt_one]

theorem inv_iterate {σ : Type} (fn : ScheduleFunction σ) (sleep : Duration) (env : Env)
    (s : RunState σ) (h : Inv sleep s) : Inv sleep (iterate fn sleep env s) := by
  by_cases hr : s.status = Status.running
  · obtain ⟨l, hl⟩ := h
    rcases hl with ⟨_, hcalls, hi, hh, ht⟩ | ⟨hst, _⟩ | ⟨r, e, hst, _⟩
    · cases hc : s.chan with
      | some x =>
        rw [iterate_exit fn sleep env s hr x hc]
        exact ⟨l, Or.inr (Or.inl ⟨rfl, hcalls, hh, by simp [ht]⟩)⟩
      | none =>
        cases he : (fn s.task s.i).2.2 with
        | some e =>
          rw [iterate_fail fn sleep env s hr hc e he]
          refine ⟨l, Or.inr (Or.inr ⟨(fn s.task s.i).2.1, e, rfl, ?_, rfl, ?_⟩)⟩
          · simp [hcalls]
          · simp [ht, hi]
        | none =>
          rw [iterate_ok fn sleep env s hr hc he]
          refine ⟨l ++ [(fn s.task s.i).2.1], Or.inl ⟨hr, ?_, ?_, hh, ?_⟩⟩
          · simp [hcalls]
          · simp only [hi, wrapInt_succ, List.length_append, List.length_singleton]
            push_cast
            rfl
          · simp only [ht, blocks_snoc, hi, List.cons_append]
            have h1 : (1 + l.length : Nat) = l.length + 1 := by omega
            rw [h1]
            push_cast
            rfl
    · rw [hst] at hr; cases hr
    · rw [hst] at hr; cases hr
  · rw [iterate_done fn sleep env s hr]
    exact h

theorem inv_run {σ : Type} (fn : ScheduleFunction σ) (sleep : Duration) (t0 : σ) (env : Env)
    (n : Nat) : Inv sleep (run fn sleep t0 env n) := by
  induction n with
  | zero => exact inv_start sleep t0 env
  | succ n ih => exact inv_iterate fn sleep env _ ih

theorem run_succ {σ : Type} (fn : ScheduleFunction σ) (sleep : Duration) (t0 : σ) (env : Env)
    (n : Nat) : run fn sleep t0 env (n + 1) = iterate fn sleep env (run fn sleep t0 env n) :=
  rfl

theorem run_stable {σ : Type} (fn : ScheduleFunction σ) (sleep : Duration) (t0 : σ) (env : Env)
    (n : Nat) (h : (run fn sleep t0 env n).status ≠ Status.running) (m : Nat) :
    run fn sleep t0 env (n + m) = run fn sleep t0 env n := by
  induction m with
  | zero => rfl
  | succ m ih =>
    rw [← Nat.add_assoc, run_succ, ih, iterate_done fn sleep env _ h]

theorem running_of_iterate {σ : Type} (fn : ScheduleFunction σ) (sleep : Duration) (env : Env)
    (s : RunState σ) (h : (iterate fn sleep env s).status = Status.running) :
    s.status = Status.running := by
  by_contra hr
  rw [iterate_done fn sleep env s hr] at h
  exact hr h

theorem running_iterate_iff {σ : Type} (fn : ScheduleFunction σ) (sleep : Duration) (env : Env)
    (s : RunState σ) (h : (iterate fn sleep env s).status = Status.running) :
    s.chan = none ∧ (fn s.task s.i).2.2 = none := by
  have hr := running_of_iterate fn sleep env s h
  cases hc : s.chan with
  | some x =>
    rw [iterate_exit fn sleep env s hr x hc] at h
    cases h
  | none =>
    cases he : (fn s.task s.i).2.2 with
    | some e =>
      rw [iterate_fail fn sleep env s hr hc e he] at h
      cases h
    | none => exact ⟨rfl, rfl⟩

theorem calls_of_running {σ : Type} (fn : ScheduleFunction σ) (sleep : Duration) (t0 : σ)
    (env : Env) (n : Nat) (h : (run fn sleep t0 env n).status = Status.running) :
    (run fn sleep t0 env n).calls = n := by
  induction n with
  | zero => rfl
  | succ n ih =>
    rw [run_succ] at h ⊢
    have hr := running_of_iterate fn sleep env _ h
    obtain ⟨hc, he⟩ := running_iterate_iff fn sleep env _ h
    rw [iterate_ok fn sleep env _ hr hc he]
    simp [ih hr]

theorem invocations_invoke (a : Int) (r : Option Duration) (e : Option GoError)
    (t : List Event) : invocations (Event.invoke a r e :: t) = a :: invocations t := rfl

theorem invocations_sleep (d : Duration) (t : List Event) :
    invocations (Event.sleep d :: t) = invocations t := rfl

theorem invocations_notify (l : List Signal) (t : List Event) :
    invocations (Event.notify l :: t) = invocations t := rfl

theorem invocations_exit (c : Int) (t : List Event) :
    invocations (Event.exit c :: t) = invocations t := rfl

theorem invocations_panic (e : GoError) (t : List Event) :
    invocations (Event.panic e :: t) = invocations t := rfl

theorem invocations_stop (t : List Event) :
    invocations (Event.stop :: t) = invocations t := rfl

theorem invocations_nil : invocations [] = [] := rfl

theorem invocations_append (a b : List Event) :
    invocations (a ++ b) = invocations a ++ invocations b := by
  induction a with
  | nil => rfl
  | cons e t ih =>
    cases e <;>
      simp only [List.cons_append, invocations_invoke, invocations_sleep, invocations_notify,
        invocations_exit, invocations_panic, invocations_stop, ih]

theorem invocations_blocks (sleep : Duration) (l : List (Option Duration)) :
    ∀ k : Nat, invocations (blocks sleep k l) =
      (List.range l.length).map (fun j => wrapInt ((k + j : Nat) : Int)) := by
  induction l with
  | nil => intro k; rfl
  | cons r t ih =>
    intro k
    have hf : (fun j => wrapInt ((k + 1 + j : Nat) : Int)) =
        (fun j => wrapInt ((k + j : Nat) : Int)) ∘ Nat.succ := by
      funext j
      rw [Function.comp_apply]
      have h : k + 1 + j = k + j.succ := by omega
      rw [h]
    rw [blocks, invocations_invoke, invocations_sleep, ih, List.length_cons,
      List.range_succ_eq_map, List.map_cons, List.map_map, hf, Nat.add_zero]

/-- In every reachable state the iteration values passed so far are the wrapped
successors `wrapInt 1, wrapInt 2, ...`, one per call. -/
theorem invocations_run {σ : Type} (fn : ScheduleFunction σ) (sleep : Duration) (t0 : σ)
    (env : Env) (n : Nat) :
    invocations (run fn sleep t0 env n).trace =
      (List.range (run fn sleep t0 env n).calls).map (fun j => wrapInt ((1 + j : Nat) : Int)) := by
  obtain ⟨l, hl⟩ := inv_run fn sleep t0 env n
  rcases hl with ⟨_, hcalls, _, _, ht⟩ | ⟨_, hcalls, _, ht⟩ | ⟨r, e, _, hcalls, _, ht⟩
  · rw [ht, hcalls, invocations_notify, invocations_blocks]
  · rw [ht, hcalls, invocations_notify, invocations_append, invocations_blocks,
      invocations_exit, invocations_nil, List.append_nil]
  · rw [ht, hcalls, invocations_notify, invocations_append, invocations_blocks,
      invocations_invoke, invocations_panic, invocations_stop, invocations_nil,
      List.range_succ, List.map_append, List.map_cons, List.map_nil,
      show ((1 + l.length : Nat) : Int) = (l.length : Int) + 1 by push_cast; ring]

theorem deliverAll_unsubscribed (h : List Signal) (sigs : List Signal) :
    ∀ c : Option Signal, (∀ s ∈ sigs, s ∉ h) → deliverAll h c sigs = c := by
  induction sigs with
  | nil => intro c _; rfl
  | cons s t ih =>
    intro c hs
    have h1 : s ∉ h := hs s (List.mem_cons_self s t)
    have h2 : ∀ x ∈ t, x ∉ h := fun x hx => hs x (List.mem_cons_of_mem s hx)
    have h3 := ih (deliver h c s) h2
    simp only [deliverAll, List.foldl_cons] at h3 ⊢
    rw [h3]
    simp [deliver, h1]

theorem silent_quietEnv : Silent quietEnv := by
  refine ⟨?_, fun k => ⟨?_, ?_⟩⟩ <;> intro s hs <;> cases hs

/-- Without a subscribed signal and without a failure the loop keeps running with
an empty channel. -/
theorem running_of_silent {σ : Type} (fn : ScheduleFunction σ) (sleep : Duration) (t0 : σ)
    (env : Env) (hq : Silent env) (hf : ∀ st a, (fn st a).2.2 = none) (n : Nat) :
    (run fn sleep t0 env n).status = Status.running ∧ (run fn sleep t0 env n).chan = none ∧
      (run fn sleep t0 env n).handlers = notifySignals := by
  induction n with
  | zero =>
    refine ⟨rfl, ?_, rfl⟩
    exact deliverAll_unsubscribed notifySignals env.atStart none hq.1
  | succ n ih =>
    obtain ⟨hr, hc, hh⟩ := ih
    rw [run_succ, iterate_ok fn sleep env _ hr hc (hf _ _)]
    refine ⟨hr, ?_, hh⟩
    simp only [hh]
    rw [deliverAll_unsubscribed notifySignals _ none (hq.2 _).1,
      deliverAll_unsubscribed notifySignals _ none (hq.2 _).2]

theorem getElem?_map_range (f : Nat → Int) (m j : Nat) (a : Int)
    (h : ((List.range m).map f)[j]? = some a) : j < m ∧ a = f j := by
  by_cases hj : j < m
  · rw [List.getElem?_map, List.getElem?_range hj] at h
    simp only [Option.map_some', Option.some.injEq] at h
    exact ⟨hj, h.symm⟩
  · rw [List.getElem?_eq_none (by simpa using hj)] at h
    cases h

theorem getElem?_map_range_of_lt (f : Nat → Int) (m j : Nat) (hj : j < m) :
    ((List.range m).map f)[j]? = some (f j) := by
  rw [List.getElem?_map, List.getElem?_range hj]
  rfl

theorem iterate_recording {σ : Type} (fn : ScheduleFunction σ) (sleep : Duration)
    (env : Env) (s' : RunState (σ × List Int)) (s : RunState σ) (h : Sim s' s) :
    Sim (iterate (recording fn) sleep env s') (iterate fn sleep env s) := by
  obtain ⟨i, calls, task, chan, handlers, trace, status⟩ := s
  obtain ⟨i', calls', ⟨task', log⟩, chan', handlers', trace', status'⟩ := s'
  simp only [Sim] at h
  obtain ⟨rfl, rfl, rfl, rfl, rfl, rfl, rfl⟩ := h
  unfold iterate
  cases status' with
  | running =>
    cases chan' with
    | some x => exact ⟨rfl, rfl, rfl, rfl, rfl, rfl, rfl⟩
    | none =>
      dsimp only [recording]
      cases he : (fn task' i').2.2 with
      | some e => exact ⟨rfl, rfl, rfl, rfl, rfl, rfl, rfl⟩
      | none => exact ⟨rfl, rfl, rfl, rfl, rfl, rfl, rfl⟩
  | exited c => exact ⟨rfl, rfl, rfl, rfl, rfl, rfl, rfl⟩
  | panicked e => exact ⟨rfl, rfl, rfl, rfl, rfl, rfl, rfl⟩
  | returned => exact ⟨rfl, rfl, rfl, rfl, rfl, rfl, rfl⟩

/-- Instrumenting the callback does not change the run. -/
theorem run_recording {σ : Type} (fn : ScheduleFunction σ) (sleep : Duration) (t0 : σ)
    (env : Env) (n : Nat) :
    Sim (run (recording fn) sleep (t0, []) env n) (run fn sleep t0 env n) := by
  induction n with
  | zero => exact ⟨rfl, rfl, rfl, rfl, rfl, rfl, rfl⟩
  | succ n ih => exact iterate_recording fn sleep env _ _ ih

theorem iterate_received {σ : Type} (fn : ScheduleFunction σ) (sleep : Duration) (env : Env)
    (s : RunState (σ × List Int)) (h : s.task.2 = invocations s.trace) :
    (iterate (recording fn) sleep env s).task.2 =
      invocations (iterate (recording fn) sleep env s).trace := by
  by_cases hr : s.status = Status.running
  · cases hc : s.chan with
    | some x =>
      rw [iterate_exit (recording fn) sleep env s hr x hc]
      show s.task.2 = invocations (s.trace ++ [Event.exit 0])
      rw [invocations_append, invocations_exit, invocations_nil, List.append_nil, h]
    | none =>
      cases he : (recording fn s.task s.i).2.2 with
      | some e =>
        rw [iterate_fail (recording fn) sleep env s hr hc e he]
        show s.task.2 ++ [s.i] = invocations (s.trace ++ _)
        rw [invocations_append, invocations_invoke, invocations_panic, invocations_stop,
          invocations_nil, h]
      | none =>
        rw [iterate_ok (recording fn) sleep env s hr hc he]
        show s.task.2 ++ [s.i] = invocations (s.trace ++ _)
        rw [invocations_append, invocations_invoke, invocations_sleep, invocations_nil, h]
  · rw [iterate_done (recording fn) sleep env s hr]
    exact h

/-- The values the callback has been called with are the values logged in the
invocation events of the trace. -/
theorem received_run {σ : Type} (fn : ScheduleFunction σ) (sleep : Duration) (t0 : σ)
    (env : Env) (n : Nat) :
    (run (recording fn) sleep (t0, []) env n).task.2 =
      invocations (run (recording fn) sleep (t0, []) env n).trace := by
  induction n with
  | zero => rfl
  | succ n ih => exact iterate_received fn sleep env _ ih

/-- C1 (as amended): in every execution of `run`, the argument the callback is
applied to in its `N`-th call (read from the list kept by the instrumented
callback, whose run has the same trace, status and callback state as the run of
`fn` itself) is the value obtained from 1 by `N - 1` increments in Go `int`
arithmetic, that is `wrapInt N`; for every `N` below `2^63` this is exactly `N`.
The same value is the one logged in the `N`-th invocation event of the trace. -/
theorem iteration_value {σ : Type} (fn : ScheduleFunction σ) (sleep : Duration) (t0 : σ)
    (env : Env) (n N : Nat) (a : Int) (hN : 1 ≤ N)
    (h : ((run (recording fn) sleep (t0, []) env n).task.2)[N - 1]? = some a) :
    a = wrapInt N ∧ ((N : Int) < 2 ^ 63 → a = N) ∧
      (invocations (run fn sleep t0 env n).trace)[N - 1]? = some a ∧
      (run (recording fn) sleep (t0, []) env n).trace = (run fn sleep t0 env n).trace ∧
      (run (recording fn) sleep (t0, []) env n).status = (run fn sleep t0 env n).status ∧
      (run (recording fn) sleep (t0, []) env n).task.1 = (run fn sleep t0 env n).task := by
  obtain ⟨_, _, htask, _, _, htrace, hstatus⟩ := run_recording fn sleep t0 env n
  have hlog : (invocations (run fn sleep t0 env n).trace)[N - 1]? = some a := by
    rw [← htrace, ← received_run]
    exact h
  have h' := hlog
  rw [invocations_run] at h'
  obtain ⟨_, ha⟩ := getElem?_map_range _ _ _ _ h'
  have hN1 : 1 + (N - 1) = N := by omega
  rw [hN1] at ha
  refine ⟨ha, fun hlt => ?_, hlog, htrace, hstatus, htask⟩
  rw [ha]
  exact wrapInt_of_lt _ (by have : (0 : Int) ≤ N := Int.ofNat_nonneg N
                            omega) hlt

/-- Instance of the preceding theorem: the second call of the callback of `main`
is applied to 2. -/
theorem iteration_value_witness :
    ((run (recording mainTask) second ((), []) quietEnv 3).task.2)[2 - 1]? = some 2 ∧
      (run (recording mainTask) second ((), []) quietEnv 3).task.2 = [1, 2, 3] ∧
      ((2 : Int) = wrapInt (2 : Nat) ∧ (((2 : Nat) : Int) < 2 ^ 63 → (2 : Int) = (2 : Nat))) :=
  ⟨by decide, by decide,
   (iteration_value mainTask second () quietEnv 3 2 2 (by decide) (by decide)).1,
   (iteration_value mainTask second () quietEnv 3 2 2 (by decide) (by decide)).2.1⟩

/-- C1 (as stated) fails: with a callback that always succeeds, a zero interval
and no signal, the call number `2^63` is applied to `-2^63`, not to `2^63`. -/
theorem iteration_value_overflow :
    ((run (recording mainTask) 0 ((), []) quietEnv (2 ^ 63)).task.2)[2 ^ 63 - 1]? =
        some (-9223372036854775808) ∧
      (-9223372036854775808 : Int) ≠ ((2 ^ 63 : Nat) : Int) := by
  constructor
  · have hr := (running_of_silent (recording mainTask) 0 ((), []) quietEnv silent_quietEnv
      (fun _ _ => rfl) (2 ^ 63)).1
    rw [received_run, invocations_run, calls_of_running _ _ _ _ _ hr,
      getElem?_map_range_of_lt _ _ _ (by norm_num)]
    have h1 : ((1 + (2 ^ 63 - 1) : Nat) : Int) = 9223372036854775808 := by norm_num
    rw [h1]
    unfold wrapInt intBits
    norm_num
  · norm_num

theorem ending_no_later_invoke (m : Nat) (fin : List Event) (hf : Ending m fin) (j : Nat)
    (a : Int) (r : Option Duration) (err : Option GoError)
    (h : fin[j + 1]? = some (Event.invoke a r err)) : False := by
  rcases hf with hf | hf | ⟨r0, e0, hf⟩
  · subst hf; cases h
  · subst hf; cases h
  · subst hf
    match j, h with
    | 0, h => cases h
    | 1, h => cases h
    | j + 2, h => cases h

theorem body_head (sleep : Duration) (k : Nat) (l : List (Option Duration)) (fin : List Event)
    (hf : Ending (k + l.length) fin) (j : Nat) (a : Int) (r : Option Duration)
    (err : Option GoError) (h : (blocks sleep k l ++ fin)[j]? = some (Event.invoke a r err)) :
    ∃ r0 err0, (blocks sleep k l ++ fin)[0]? = some (Event.invoke (wrapInt k) r0 err0) := by
  cases l with
  | cons r0 t => exact ⟨r0, none, rfl⟩
  | nil =>
    rw [blocks, List.nil_append] at h ⊢
    cases j with
    | succ j => exact (ending_no_later_invoke _ fin hf j a r err h).elim
    | zero =>
      rcases hf with hf | hf | ⟨r0, e0, hf⟩
      · subst hf; cases h
      · subst hf; cases h
      · subst hf
        exact ⟨r0, some e0, rfl⟩

theorem body_between (sleep : Duration) (l : List (Option Duration)) (fin : List Event) :
    ∀ (k j j' : Nat) (a a' : Int) (r r' : Option Duration) (err err' : Option GoError),
      Ending (k + l.length) fin →
      (blocks sleep k l ++ fin)[j]? = some (Event.invoke a r err) →
      (blocks sleep k l ++ fin)[j']? = some (Event.invoke a' r' err') → j < j' →
      (blocks sleep k l ++ fin)[j + 1]? = some (Event.sleep (r.getD sleep)) ∧
        ∃ r2 err2, (blocks sleep k l ++ fin)[j + 2]? =
          some (Event.invoke (wrapInt (a + 1)) r2 err2) := by
  induction l with
  | nil =>
    intro k j j' a a' r r' err err' hf h1 h2 hlt
    rw [blocks, List.nil_append] at h1 h2
    obtain ⟨d, hd⟩ : ∃ d, j' = d + 1 := ⟨j' - 1, by omega⟩
    subst hd
    exact (ending_no_later_invoke _ fin hf d a' r' err' h2).elim
  | cons r0 t ih =>
    intro k j j' a a' r r' err err' hf h1 h2 hlt
    have hf' : Ending (k + 1 + t.length) fin := by
      have e : k + (r0 :: t).length = k + 1 + t.length := by
        rw [List.length_cons]; omega
      rw [e] at hf
      exact hf
    rw [blocks, List.cons_append, List.cons_append] at h1 h2 ⊢
    match j, h1 with
    | 0, h1 =>
      rw [List.getElem?_cons_zero, Option.some.injEq, Event.invoke.injEq] at h1
      obtain ⟨ha, hr, _⟩ := h1
      obtain ⟨d, hd⟩ : ∃ d, j' = d + 1 := ⟨j' - 1, by omega⟩
      subst hd
      cases d with
      | zero =>
        rw [List.getElem?_cons_succ, List.getElem?_cons_zero, Option.some.injEq] at h2
        cases h2
      | succ j2 =>
        rw [List.getElem?_cons_succ, List.getElem?_cons_succ] at h2
        obtain ⟨r2, err2, hh⟩ := body_head sleep (k + 1) t fin hf' j2 a' r' err' h2
        refine ⟨?_, r2, err2, ?_⟩
        · rw [List.getElem?_cons_succ, List.getElem?_cons_zero, hr]
        · rw [List.getElem?_cons_succ, List.getElem?_cons_succ, hh, ← ha, wrapInt_succ,
            Nat.cast_add, Nat.cast_one]
    | 1, h1 =>
      rw [List.getElem?_cons_succ, List.getElem?_cons_zero, Option.some.injEq] at h1
      cases h1
    | j1 + 2, h1 =>
      rw [List.getElem?_cons_succ, List.getElem?_cons_succ] at h1
      obtain ⟨d, hd⟩ : ∃ d, j' = d + 2 := ⟨j' - 2, by omega⟩
      subst hd
      rw [List.getElem?_cons_succ, List.getElem?_cons_succ] at h2
      have := ih (k + 1) j1 d a a' r r' err err' hf' h1 h2 (by omega)
      rw [List.getElem?_cons_succ, List.getElem?_cons_succ, List.getElem?_cons_succ,
        List.getElem?_cons_succ]
      exact this

theorem trace_shape {σ : Type} (fn : ScheduleFunction σ) (sleep : Duration) (t0 : σ)
    (env : Env) (n : Nat) :
    ∃ l fin, Ending (1 + l.length) fin ∧
      (run fn sleep t0 env n).trace = Event.notify notifySignals :: (blocks sleep 1 l ++ fin) := by
  obtain ⟨l, hl⟩ := inv_run fn sleep t0 env n
  rcases hl with ⟨_, _, _, _, ht⟩ | ⟨_, _, _, ht⟩ | ⟨r, e, _, _, _, ht⟩
  · exact ⟨l, [], Or.inl rfl, by rw [ht, List.append_nil]⟩
  · exact ⟨l, _, Or.inr (Or.inl rfl), ht⟩
  · refine ⟨l, _, Or.inr (Or.inr ⟨r, e, ?_⟩), ht⟩
    rw [show ((1 + l.length : Nat) : Int) = (l.length : Int) + 1 by push_cast; ring]

/-- Trace form: whenever an invocation event (at position `j` of the trace, with
iteration value `a` and returned override `r`) is followed by any later
invocation, the event right after it is one sleep whose duration is the override
when there is one and the default interval otherwise, and the event right after
that sleep is the next invocation, with iteration value `a + 1`. The duration
depends on nothing but the result of the invocation just made. -/
theorem logged_sleep_between_invocations {σ : Type} (fn : ScheduleFunction σ) (sleep : Duration)
    (t0 : σ) (env : Env) (n j j' : Nat) (a a' : Int) (r r' : Option Duration)
    (err err' : Option GoError)
    (h1 : (run fn sleep t0 env n).trace[j]? = some (Event.invoke a r err))
    (h2 : (run fn sleep t0 env n).trace[j']? = some (Event.invoke a' r' err'))
    (hlt : j < j') :
    (run fn sleep t0 env n).trace[j + 1]? = some (Event.sleep (r.getD sleep)) ∧
      ∃ r2 err2, (run fn sleep t0 env n).trace[j + 2]? =
        some (Event.invoke (wrapInt (a + 1)) r2 err2) := by
  obtain ⟨l, fin, hf, ht⟩ := trace_shape fn sleep t0 env n
  rw [ht] at h1 h2 ⊢
  obtain ⟨d', hd'⟩ : ∃ d, j' = d + 1 := ⟨j' - 1, by omega⟩
  subst hd'
  cases j with
  | zero =>
    rw [List.getElem?_cons_zero, Option.some.injEq] at h1
    cases h1
  | succ d =>
    rw [List.getElem?_cons_succ] at h1 h2
    have := body_between sleep l fin 1 d d' a a' r r' err err' hf h1 h2 (by omega)
    rw [List.getElem?_cons_succ, List.getElem?_cons_succ]
    exact this

/-- The trace form in the override scenario: with the
override 200ms returned on iteration 1 only and a default interval of one
second, the sleep between the second and the third invocation is one second. -/
theorem logged_sleep_at_default :
    (run overrideOnce second () quietEnv 3).trace[3 + 1]? =
        some (Event.sleep ((none : Option Duration).getD second)) ∧
      ∃ r2 err2, (run overrideOnce second () quietEnv 3).trace[3 + 2]? =
        some (Event.invoke (wrapInt (2 + 1)) r2 err2) :=
  logged_sleep_between_invocations overrideOnce second () quietEnv 3 3 5 2 3 none none none none
    (by decide) (by decide) (by decide)

theorem i_of_running {σ : Type} (fn : ScheduleFunction σ) (sleep : Duration) (t0 : σ)
    (env : Env) (n : Nat) (h : (run fn sleep t0 env n).status = Status.running) :
    (run fn sleep t0 env n).i = wrapInt ((n : Int) + 1) := by
  have hcalls := calls_of_running fn sleep t0 env n h
  obtain ⟨l, hl⟩ := inv_run fn sleep t0 env n
  rcases hl with ⟨_, hc, hi, _, _⟩ | ⟨hst, _⟩ | ⟨r, e, hst, _⟩
  · rw [hi, ← hc, hcalls]
  · rw [hst] at h; cases h
  · rw [hst] at h; cases h

/-- C2: let call number `k = n + 1` and call number `k + 1` both occur: the loop
is running with an empty channel after `n` passes, the call `fn(i)` of pass
`n + 1` returns no error, and the channel is empty again at the next boundary.
Then call `k` is `fn` applied to its current state and to `k`, call `k + 1` is
`fn` applied to the state call `k` left and to `k + 1`, and the trace gains
exactly: the invocation `k`, one sleep whose duration is the override that this
very call of `fn` returned when it returned one and the default interval
otherwise, the invocation `k + 1`, and then what follows call `k + 1` (its own
sleep, again decided by its own result only, or its panic). -/
theorem sleep_between_invocations {σ : Type} (fn : ScheduleFunction σ) (sleep : Duration)
    (t0 : σ) (env : Env) (n : Nat)
    (hr : (run fn sleep t0 env n).status = Status.running)
    (hc : (run fn sleep t0 env n).chan = none)
    (he : (fn (run fn sleep t0 env n).task (run fn sleep t0 env n).i).2.2 = none)
    (hc1 : (run fn sleep t0 env (n + 1)).chan = none) :
    (run fn sleep t0 env n).i = wrapInt ((n : Int) + 1) ∧
      (run fn sleep t0 env (n + 1)).i = wrapInt ((n : Int) + 2) ∧
      (run fn sleep t0 env (n + 1)).task =
        (fn (run fn sleep t0 env n).task (run fn sleep t0 env n).i).1 ∧
      (run fn sleep t0 env (n + 2)).calls = n + 2 ∧
      (run fn sleep t0 env (n + 2)).trace =
        (run fn sleep t0 env n).trace ++
          [Event.invoke (run fn sleep t0 env n).i
             (fn (run fn sleep t0 env n).task (run fn sleep t0 env n).i).2.1 none,
           Event.sleep
             (match (fn (run fn sleep t0 env n).task (run fn sleep t0 env n).i).2.1 with
              | some d => d
              | none => sleep),
           Event.invoke (run fn sleep t0 env (n + 1)).i
             (fn (run fn sleep t0 env (n + 1)).task (run fn sleep t0 env (n + 1)).i).2.1
             (fn (run fn sleep t0 env (n + 1)).task (run fn sleep t0 env (n + 1)).i).2.2] ++
          (match (fn (run fn sleep t0 env (n + 1)).task
              (run fn sleep t0 env (n + 1)).i).2.2 with
           | some e => [Event.panic e, Event.stop]
           | none =>
             [Event.sleep
               (match (fn (run fn sleep t0 env (n + 1)).task
                   (run fn sleep t0 env (n + 1)).i).2.1 with
                | some d => d
                | none => sleep)]) := by
  have h1 : run fn sleep t0 env (n + 1) = _ := iterate_ok fn sleep env _ hr hc he
  have hr1 : (run fn sleep t0 env (n + 1)).status = Status.running := by
    rw [h1]; exact hr
  have ht1 : (run fn sleep t0 env (n + 1)).trace =
      (run fn sleep t0 env n).trace ++
        [Event.invoke (run fn sleep t0 env n).i
           (fn (run fn sleep t0 env n).task (run fn sleep t0 env n).i).2.1 none,
         Event.sleep
           (match (fn (run fn sleep t0 env n).task (run fn sleep t0 env n).i).2.1 with
            | some d => d
            | none => sleep)] := by
    rw [h1]
    show _ ++ [_, Event.sleep (Option.getD _ sleep)] = _
    cases (fn (run fn sleep t0 env n).task (run fn sleep t0 env n).i).2.1 <;> rfl
  have htask : (run fn sleep t0 env (n + 1)).task =
      (fn (run fn sleep t0 env n).task (run fn sleep t0 env n).i).1 := by
    rw [h1]
  have hcalls1 := calls_of_running fn sleep t0 env (n + 1) hr1
  have hi := i_of_running fn sleep t0 env n hr
  have hi1 : (run fn sleep t0 env (n + 1)).i = wrapInt ((n : Int) + 2) := by
    rw [i_of_running fn sleep t0 env (n + 1) hr1, Nat.cast_add, Nat.cast_one, add_assoc]
    rfl
  refine ⟨hi, hi1, htask, ?_, ?_⟩
  · cases he2 : (fn (run fn sleep t0 env (n + 1)).task (run fn sleep t0 env (n + 1)).i).2.2 with
    | some e =>
      have h2 : run fn sleep t0 env (n + 2) = _ := iterate_fail fn sleep env _ hr1 hc1 e he2
      rw [h2]
      show (run fn sleep t0 env (n + 1)).calls + 1 = n + 2
      rw [hcalls1]
    | none =>
      have h2 : run fn sleep t0 env (n + 2) = _ := iterate_ok fn sleep env _ hr1 hc1 he2
      rw [h2]
      show (run fn sleep t0 env (n + 1)).calls + 1 = n + 2
      rw [hcalls1]
  · cases he2 : (fn (run fn sleep t0 env (n + 1)).task (run fn sleep t0 env (n + 1)).i).2.2 with
    | some e =>
      have h2 : run fn sleep t0 env (n + 2) = _ := iterate_fail fn sleep env _ hr1 hc1 e he2
      rw [h2]
      show (run fn sleep t0 env (n + 1)).trace ++ _ = _
      rw [ht1, List.append_assoc, List.append_assoc]
      rfl
    | none =>
      have h2 : run fn sleep t0 env (n + 2) = _ := iterate_ok fn sleep env _ hr1 hc1 he2
      rw [h2]
      show (run fn sleep t0 env (n + 1)).trace ++
        [_, Event.sleep (Option.getD _ sleep)] = _
      rw [ht1, List.append_assoc, List.append_assoc]
      cases (fn (run fn sleep t0 env (n + 1)).task (run fn sleep t0 env (n + 1)).i).2.1 <;> rfl

/-- Instance of the preceding theorem at the pass that returns the override:
with the override 200ms returned on iteration 1 only and a default interval of
one second, the sleep between the first and the second invocation is 200ms and
the sleep after the second invocation is one second again. -/
theorem sleep_between_invocations_witness :
    (overrideOnce (run overrideOnce second () quietEnv 0).task
        (run overrideOnce second () quietEnv 0).i).2.1 = some (200 * millisecond) ∧
      (run overrideOnce second () quietEnv (0 + 2)).calls = 0 + 2 ∧
      (run overrideOnce second () quietEnv (0 + 2)).trace =
        [Event.notify notifySignals,
         Event.invoke 1 (some (200 * millisecond)) none, Event.sleep (200 * millisecond),
         Event.invoke 2 none none, Event.sleep second] :=
  ⟨by decide,
   (sleep_between_invocations overrideOnce second () quietEnv 0 (by decide) (by decide)
      (by decide) (by decide)).2.2.2.1,
   (sleep_between_invocations overrideOnce second () quietEnv 0 (by decide) (by decide)
      (by decide) (by decide)).2.2.2.2.trans (by decide)⟩

theorem deliver_some (h : List Signal) (x s : Signal) : deliver h (some x) s = some x := by
  unfold deliver send
  split <;> rfl

theorem deliverAll_some (h : List Signal) (x : Signal) (sigs : List Signal) :
    deliverAll h (some x) sigs = some x := by
  induction sigs with
  | nil => rfl
  | cons s t ih =>
    unfold deliverAll at ih ⊢
    rw [List.foldl_cons, deliver_some, ih]

theorem deliverAll_pending (h : List Signal) (s : Signal) (hs : s ∈ h) (sigs : List Signal) :
    ∀ c : Option Signal, s ∈ sigs → ∃ x, deliverAll h c sigs = some x := by
  induction sigs with
  | nil => intro c hm; cases hm
  | cons a t ih =>
    intro c hm
    unfold deliverAll at ih ⊢
    rw [List.foldl_cons]
    rcases List.mem_cons.mp hm with hm | hm
    · subst hm
      cases c with
      | none =>
        have hd : deliver h none s = some s := by
          unfold deliver send
          rw [if_pos hs]
        rw [hd]
        exact ⟨s, deliverAll_some h s t⟩
      | some x =>
        rw [deliver_some]
        exact ⟨x, deliverAll_some h x t⟩
    · exact ih _ hm

theorem handlers_of_running {σ : Type} (fn : ScheduleFunction σ) (sleep : Duration) (t0 : σ)
    (env : Env) (n : Nat) (h : (run fn sleep t0 env n).status = Status.running) :
    (run fn sleep t0 env n).handlers = notifySignals := by
  obtain ⟨l, hl⟩ := inv_run fn sleep t0 env n
  rcases hl with ⟨_, _, _, hh, _⟩ | ⟨hst, _⟩ | ⟨r, e, hst, _⟩
  · exact hh
  · rw [hst] at h; cases h
  · rw [hst] at h; cases h

theorem exit_of_pending {σ : Type} (fn : ScheduleFunction σ) (sleep : Duration) (t0 : σ)
    (env : Env) (n : Nat) (x : Signal)
    (hr : (run fn sleep t0 env n).status = Status.running)
    (hc : (run fn sleep t0 env n).chan = some x) (m : Nat) :
    (run fn sleep t0 env (n + 1 + m)).status = Status.exited 0 ∧
      (run fn sleep t0 env (n + 1 + m)).trace =
        (run fn sleep t0 env n).trace ++ [Event.exit 0] ∧
      (run fn sleep t0 env (n + 1 + m)).calls = (run fn sleep t0 env n).calls := by
  have h1 : run fn sleep t0 env (n + 1) = _ := iterate_exit fn sleep env _ hr x hc
  have h2 : (run fn sleep t0 env (n + 1)).status ≠ Status.running := by
    rw [h1]
    intro h
    cases h
  rw [run_stable fn sleep t0 env (n + 1) h2 m, h1]
  exact ⟨rfl, rfl, rfl⟩

/-- C3: if a signal is pending in the channel when the loop reaches an iteration
boundary (the boundary after `n` passes, `n = 0` being the one before the first
iteration), then the next pass calls `os.Exit(0)` and nothing else: from then on
the status is exit with code 0, the trace is the old trace followed by the exit
alone (no invocation, no sleep), and the number of calls of `fn` never grows. -/
theorem pending_signal_exits {σ : Type} (fn : ScheduleFunction σ) (sleep : Duration) (t0 : σ)
    (env : Env) (n : Nat) (x : Signal)
    (hr : (run fn sleep t0 env n).status = Status.running)
    (hc : (run fn sleep t0 env n).chan = some x) (m : Nat) :
    (run fn sleep t0 env (n + 1 + m)).status = Status.exited 0 ∧
      (run fn sleep t0 env (n + 1 + m)).trace =
        (run fn sleep t0 env n).trace ++ [Event.exit 0] ∧
      (run fn sleep t0 env (n + 1 + m)).calls = (run fn sleep t0 env n).calls :=
  exit_of_pending fn sleep t0 env n x hr hc m

/-- Instance of the preceding theorem: SIGTERM arrives during the sleep after
the second call; the third pass exits and the trace holds two invocations. -/
theorem pending_signal_exits_witness :
    (run mainTask second () (signalDuringSleep Signal.SIGTERM 2) (2 + 1 + 4)).status =
        Status.exited 0 ∧
      (run mainTask second () (signalDuringSleep Signal.SIGTERM 2) (2 + 1 + 4)).trace =
        (run mainTask second () (signalDuringSleep Signal.SIGTERM 2) 2).trace ++
          [Event.exit 0] ∧
      (run mainTask second () (signalDuringSleep Signal.SIGTERM 2) (2 + 1 + 4)).calls =
        (run mainTask second () (signalDuringSleep Signal.SIGTERM 2) 2).calls :=
  pending_signal_exits mainTask second () (signalDuringSleep Signal.SIGTERM 2) 2
    Signal.SIGTERM (by decide) (by decide) 4

/-- The boundary before the first iteration: a signal that arrived right after
the subscription ends the run without any call of `fn`. -/
theorem signal_before_first_iteration :
    (run mainTask second () (signalAtStart Signal.SIGINT) 1).status = Status.exited 0 ∧
      (run mainTask second () (signalAtStart Signal.SIGINT) 1).trace =
        [Event.notify notifySignals, Event.exit 0] := by
  decide

/-- C6: if the call `fn(i)` made in pass `n + 1` returns a non-nil error `e`
(whatever duration it returns with it), the run ends in the panic carrying
exactly `e`: the trace is the old trace followed by that invocation, the panic
and the deferred `signal.Stop` (no sleep); from then on nothing changes, so there
is no further invocation, no retry and no exit with status 0. -/
theorem task_failure_panics {σ : Type} (fn : ScheduleFunction σ) (sleep : Duration) (t0 : σ)
    (env : Env) (n : Nat) (e : GoError)
    (hr : (run fn sleep t0 env n).status = Status.running)
    (hc : (run fn sleep t0 env n).chan = none)
    (he : (fn (run fn sleep t0 env n).task (run fn sleep t0 env n).i).2.2 = some e) (m : Nat) :
    (run fn sleep t0 env (n + 1 + m)).status = Status.panicked e ∧
      (run fn sleep t0 env (n + 1 + m)).trace =
        (run fn sleep t0 env n).trace ++
          [Event.invoke (run fn sleep t0 env n).i
             (fn (run fn sleep t0 env n).task (run fn sleep t0 env n).i).2.1 (some e),
           Event.panic e, Event.stop] ∧
      (run fn sleep t0 env (n + 1 + m)).calls = (run fn sleep t0 env n).calls + 1 ∧
      (run fn sleep t0 env (n + 1 + m)).status ≠ Status.exited 0 := by
  have h1 : run fn sleep t0 env (n + 1) = _ := iterate_fail fn sleep env _ hr hc e he
  have h2 : (run fn sleep t0 env (n + 1)).status ≠ Status.running := by
    rw [h1]
    intro h
    cases h
  rw [run_stable fn sleep t0 env (n + 1) h2 m, h1]
  refine ⟨rfl, rfl, rfl, ?_⟩
  intro h
  cases h

/-- Instance of the preceding theorem: the third call fails. -/
theorem task_failure_panics_witness :
    (run failOnThird second () quietEnv (2 + 1 + 5)).status = Status.panicked "boom" ∧
      (run failOnThird second () quietEnv (2 + 1 + 5)).trace =
        (run failOnThird second () quietEnv 2).trace ++
          [Event.invoke (run failOnThird second () quietEnv 2).i
             (failOnThird (run failOnThird second () quietEnv 2).task
               (run failOnThird second () quietEnv 2).i).2.1 (some "boom"),
           Event.panic "boom", Event.stop] ∧
      (run failOnThird second () quietEnv (2 + 1 + 5)).calls =
        (run failOnThird second () quietEnv 2).calls + 1 ∧
      (run failOnThird second () quietEnv (2 + 1 + 5)).status ≠ Status.exited 0 :=
  task_failure_panics failOnThird second () quietEnv 2 "boom" (by decide) (by decide)
    (by decide) 5

theorem iterate_calls_le {σ : Type} (fn : ScheduleFunction σ) (sleep : Duration) (env : Env)
    (s : RunState σ) : (iterate fn sleep env s).calls ≤ s.calls + 1 := by
  by_cases hr : s.status = Status.running
  · cases hc : s.chan with
    | some x =>
      rw [iterate_exit fn sleep env s hr x hc]
      exact Nat.le_succ _
    | none =>
      cases he : (fn s.task s.i).2.2 with
      | some e =>
        rw [iterate_fail fn sleep env s hr hc e he]
      | none =>
        rw [iterate_ok fn sleep env s hr hc he]
  · rw [iterate_done fn sleep env s hr]
    exact Nat.le_succ _

theorem calls_le {σ : Type} (fn : ScheduleFunction σ) (sleep : Duration) (t0 : σ)
    (env : Env) (n : Nat) : (run fn sleep t0 env n).calls ≤ n := by
  induction n with
  | zero => exact Nat.le_refl _
  | succ n ih =>
    rw [run_succ]
    exact Nat.le_trans (iterate_calls_le fn sleep env _) (Nat.succ_le_succ ih)

theorem iterate_env_congr {σ : Type} (fn : ScheduleFunction σ) (sleep : Duration)
    (env env' : Env) (s : RunState σ)
    (h1 : env'.duringCall (s.calls + 1) = env.duringCall (s.calls + 1))
    (h2 : env'.duringSleep (s.calls + 1) = env.duringSleep (s.calls + 1)) :
    iterate fn sleep env' s = iterate fn sleep env s := by
  unfold iterate
  simp only [h1, h2]

theorem run_env_congr {σ : Type} (fn : ScheduleFunction σ) (sleep : Duration) (t0 : σ)
    (env env' : Env) (n : Nat) (h0 : env'.atStart = env.atStart)
    (h : ∀ k, k ≤ n → env'.duringCall k = env.duringCall k ∧
      env'.duringSleep k = env.duringSleep k) :
    run fn sleep t0 env' n = run fn sleep t0 env n := by
  induction n with
  | zero =>
    show start t0 env' = start t0 env
    unfold start
    rw [h0]
  | succ n ih =>
    have hle := calls_le fn sleep t0 env n
    rw [run_succ, run_succ, ih (fun k hk => h k (Nat.le_succ_of_le hk))]
    exact iterate_env_congr fn sleep env env' _ (h _ (Nat.succ_le_succ hle)).1
      (h _ (Nat.succ_le_succ hle)).2

/-- The fields of the state that the environment of one pass cannot change. -/
theorem iterate_env_irrelevant {σ : Type} (fn : ScheduleFunction σ) (sleep : Duration)
    (env env' : Env) (s : RunState σ) :
    (iterate fn sleep env' s).trace = (iterate fn sleep env s).trace ∧
      (iterate fn sleep env' s).status = (iterate fn sleep env s).status ∧
      (iterate fn sleep env' s).i = (iterate fn sleep env s).i ∧
      (iterate fn sleep env' s).task = (iterate fn sleep env s).task ∧
      (iterate fn sleep env' s).calls = (iterate fn sleep env s).calls ∧
      (iterate fn sleep env' s).handlers = (iterate fn sleep env s).handlers := by
  by_cases hr : s.status = Status.running
  · cases hc : s.chan with
    | some x =>
      rw [iterate_exit fn sleep env s hr x hc, iterate_exit fn sleep env' s hr x hc]
      exact ⟨rfl, rfl, rfl, rfl, rfl, rfl⟩
    | none =>
      cases he : (fn s.task s.i).2.2 with
      | some e =>
        rw [iterate_fail fn sleep env s hr hc e he, iterate_fail fn sleep env' s hr hc e he]
        exact ⟨rfl, rfl, rfl, rfl, rfl, rfl⟩
      | none =>
        rw [iterate_ok fn sleep env s hr hc he, iterate_ok fn sleep env' s hr hc he]
        exact ⟨rfl, rfl, rfl, rfl, rfl, rfl⟩
  · rw [iterate_done fn sleep env s hr, iterate_done fn sleep env' s hr]
    exact ⟨rfl, rfl, rfl, rfl, rfl, rfl⟩

/-- C4: let the loop be about to make call number `n + 1` (running after `n`
passes, channel empty), and let `env'` differ from `env` only in the signals
that arrive while that call is in flight. Then pass `n + 1` is the same in both
executions: same trace (the call is made and its result handled in the same
way), same status, same loop variable, same callback state. In particular, if
the call returns the error `e`, the run with the signals ends in the panic
carrying `e` and stays there: it never becomes an exit with status 0. -/
theorem signal_during_call_same_outcome {σ : Type} (fn : ScheduleFunction σ)
    (sleep : Duration) (t0 : σ) (env env' : Env) (n : Nat)
    (hr : (run fn sleep t0 env n).status = Status.running)
    (hc : (run fn sleep t0 env n).chan = none)
    (h0 : env'.atStart = env.atStart)
    (hcall : ∀ k, k ≠ n + 1 → env'.duringCall k = env.duringCall k)
    (hsleep : ∀ k, env'.duringSleep k = env.duringSleep k) :
    run fn sleep t0 env' n = run fn sleep t0 env n ∧
      (run fn sleep t0 env' (n + 1)).trace = (run fn sleep t0 env (n + 1)).trace ∧
      (run fn sleep t0 env' (n + 1)).status = (run fn sleep t0 env (n + 1)).status ∧
      (run fn sleep t0 env' (n + 1)).i = (run fn sleep t0 env (n + 1)).i ∧
      (run fn sleep t0 env' (n + 1)).task = (run fn sleep t0 env (n + 1)).task ∧
      ∀ e, (fn (run fn sleep t0 env n).task (run fn sleep t0 env n).i).2.2 = some e →
        ∀ m, (run fn sleep t0 env' (n + 1 + m)).status = Status.panicked e ∧
          (run fn sleep t0 env' (n + 1 + m)).trace =
            (run fn sleep t0 env n).trace ++
              [Event.invoke (run fn sleep t0 env n).i
                 (fn (run fn sleep t0 env n).task (run fn sleep t0 env n).i).2.1 (some e),
               Event.panic e, Event.stop] := by
  have heq : run fn sleep t0 env' n = run fn sleep t0 env n :=
    run_env_congr fn sleep t0 env env' n h0
      (fun k hk => ⟨hcall k (by omega), hsleep k⟩)
  have hirr := iterate_env_irrelevant fn sleep env env' (run fn sleep t0 env n)
  refine ⟨heq, ?_, ?_, ?_, ?_, ?_⟩
  · rw [run_succ, run_succ, heq]; exact hirr.1
  · rw [run_succ, run_succ, heq]; exact hirr.2.1
  · rw [run_succ, run_succ, heq]; exact hirr.2.2.1
  · rw [run_succ, run_succ, heq]; exact hirr.2.2.2.1
  · intro e he m
    have h1 : run fn sleep t0 env' (n + 1) = _ :=
      iterate_fail fn sleep env' _ (heq ▸ hr) (heq ▸ hc) e (heq ▸ he)
    have h2 : (run fn sleep t0 env' (n + 1)).status ≠ Status.running := by
      rw [h1]
      intro h
      cases h
    rw [run_stable fn sleep t0 env' (n + 1) h2 m, h1, heq]
    exact ⟨rfl, rfl⟩

/-- Instance of the preceding theorem: SIGTERM arrives while the
failing third call is in flight; the signal is in the channel, and the run
still ends in the panic carrying the error. -/
theorem signal_during_call_same_outcome_witness :
    (run failOnThird second () (signalDuringCall Signal.SIGTERM 3) 3).chan =
        some Signal.SIGTERM ∧
      (run failOnThird second () (signalDuringCall Signal.SIGTERM 3) (2 + 1)).trace =
        (run failOnThird second () quietEnv (2 + 1)).trace ∧
      (run failOnThird second () (signalDuringCall Signal.SIGTERM 3) (2 + 1 + 4)).status =
        Status.panicked "boom" :=
  ⟨by decide,
   (signal_during_call_same_outcome failOnThird second () quietEnv
      (signalDuringCall Signal.SIGTERM 3) 2 (by decide) (by decide) rfl
      (fun k hk => by simp [signalDuringCall, quietEnv, hk]) (fun _ => rfl)).2.1,
   ((signal_during_call_same_outcome failOnThird second () quietEnv
      (signalDuringCall Signal.SIGTERM 3) 2 (by decide) (by decide) rfl
      (fun k hk => by simp [signalDuringCall, quietEnv, hk]) (fun _ => rfl)).2.2.2.2.2
      "boom" (by decide) 4).1⟩

theorem pending_at_start {σ : Type} (fn : ScheduleFunction σ) (sleep : Duration) (t0 : σ)
    (env : Env) (sig : Signal) (hsig : sig ∈ notifySignals) (hd : sig ∈ env.atStart) :
    ∃ x, (run fn sleep t0 env 0).chan = some x :=
  deliverAll_pending notifySignals sig hsig env.atStart none hd

theorem pending_after_iteration {σ : Type} (fn : ScheduleFunction σ) (sleep : Duration)
    (t0 : σ) (env : Env) (n : Nat) (sig : Signal) (hsig : sig ∈ notifySignals)
    (hr : (run fn sleep t0 env n).status = Status.running)
    (hc : (run fn sleep t0 env n).chan = none)
    (he : (fn (run fn sleep t0 env n).task (run fn sleep t0 env n).i).2.2 = none)
    (hd : sig ∈ env.duringCall (n + 1) ∨ sig ∈ env.duringSleep (n + 1)) :
    (run fn sleep t0 env (n + 1)).status = Status.running ∧
      (∃ x, (run fn sleep t0 env (n + 1)).chan = some x) ∧
      (run fn sleep t0 env (n + 1)).trace =
        (run fn sleep t0 env n).trace ++
          [Event.invoke (run fn sleep t0 env n).i
             (fn (run fn sleep t0 env n).task (run fn sleep t0 env n).i).2.1 none,
           Event.sleep
             ((fn (run fn sleep t0 env n).task (run fn sleep t0 env n).i).2.1.getD sleep)] := by
  have h1 : run fn sleep t0 env (n + 1) = _ := iterate_ok fn sleep env _ hr hc he
  have hh := handlers_of_running fn sleep t0 env n hr
  have hcalls := calls_of_running fn sleep t0 env n hr
  rw [h1]
  refine ⟨hr, ?_, rfl⟩
  show ∃ x, deliverAll _ (deliverAll _ none (env.duringCall _)) (env.duringSleep _) = some x
  rw [hh, hcalls]
  rcases hd with hd | hd
  · obtain ⟨x, hx⟩ := deliverAll_pending notifySignals sig hsig _ none hd
    rw [hx]
    exact ⟨x, deliverAll_some _ _ _⟩
  · exact deliverAll_pending notifySignals sig hsig _ _ hd

/-- C5 (as amended): if a subscribed signal arrives during iteration `n + 1`,
that is while call number `n + 1` is in flight or during the sleep that follows
it, and that call succeeds, then the call completes, the sleep that follows it
is executed as usual (override or default interval), and the next boundary calls
`os.Exit(0)`: the trace ends invoke, sleep, exit(0), call `n + 2` never
happens, and the status is exit with code 0 from then on. -/
theorem signal_during_call_exits_after_sleep {σ : Type} (fn : ScheduleFunction σ)
    (sleep : Duration) (t0 : σ) (env : Env) (n : Nat) (sig : Signal)
    (hsig : sig ∈ notifySignals)
    (hr : (run fn sleep t0 env n).status = Status.running)
    (hc : (run fn sleep t0 env n).chan = none)
    (he : (fn (run fn sleep t0 env n).task (run fn sleep t0 env n).i).2.2 = none)
    (hd : sig ∈ env.duringCall (n + 1) ∨ sig ∈ env.duringSleep (n + 1)) (m : Nat) :
    (run fn sleep t0 env (n + 2 + m)).status = Status.exited 0 ∧
      (run fn sleep t0 env (n + 2 + m)).trace =
        (run fn sleep t0 env n).trace ++
          [Event.invoke (run fn sleep t0 env n).i
             (fn (run fn sleep t0 env n).task (run fn sleep t0 env n).i).2.1 none,
           Event.sleep
             ((fn (run fn sleep t0 env n).task (run fn sleep t0 env n).i).2.1.getD sleep),
           Event.exit 0] ∧
      (run fn sleep t0 env (n + 2 + m)).calls = n + 1 := by
  obtain ⟨hr1, ⟨x, hx⟩, ht⟩ :=
    pending_after_iteration fn sleep t0 env n sig hsig hr hc he hd
  obtain ⟨hs, htr, hcl⟩ := exit_of_pending fn sleep t0 env (n + 1) x hr1 hx m
  have e : n + 2 + m = n + 1 + 1 + m := by omega
  rw [e]
  refine ⟨hs, ?_, ?_⟩
  · rw [htr, ht, List.append_assoc]
    rfl
  · rw [hcl]
    exact calls_of_running fn sleep t0 env (n + 1) hr1

/-- Instance of the preceding theorem, the scenario of the
specification: interval of one second, callback returning `nil, nil`, SIGTERM
arriving during the third call. -/
theorem signal_during_call_exits_after_sleep_witness :
    (run mainTask second () (signalDuringCall Signal.SIGTERM 3) (2 + 2 + 0)).status =
        Status.exited 0 ∧
      (run mainTask second () (signalDuringCall Signal.SIGTERM 3) (2 + 2 + 0)).trace =
        (run mainTask second () (signalDuringCall Signal.SIGTERM 3) 2).trace ++
          [Event.invoke (run mainTask second () (signalDuringCall Signal.SIGTERM 3) 2).i
             (mainTask (run mainTask second () (signalDuringCall Signal.SIGTERM 3) 2).task
               (run mainTask second () (signalDuringCall Signal.SIGTERM 3) 2).i).2.1 none,
           Event.sleep
             ((mainTask (run mainTask second () (signalDuringCall Signal.SIGTERM 3) 2).task
               (run mainTask second () (signalDuringCall Signal.SIGTERM 3) 2).i).2.1.getD
               second),
           Event.exit 0] ∧
      (run mainTask second () (signalDuringCall Signal.SIGTERM 3) (2 + 2 + 0)).calls = 2 + 1 :=
  signal_during_call_exits_after_sleep mainTask second () (signalDuringCall Signal.SIGTERM 3)
    2 Signal.SIGTERM (by decide) (by decide) (by decide) (by decide) (Or.inl (by decide)) 0

/-- C5 (as stated) fails: in the scenario of the specification the sleep after
the third invocation is executed before the exit; the trace is not
invoke(1), sleep 1s, invoke(2), sleep 1s, invoke(3), exit(0). -/
theorem signal_during_call_sleep_not_skipped :
    (run mainTask second () (signalDuringCall Signal.SIGTERM 3) 4).status = Status.exited 0 ∧
      (run mainTask second () (signalDuringCall Signal.SIGTERM 3) 4).trace =
        [Event.notify notifySignals,
         Event.invoke 1 none none, Event.sleep second,
         Event.invoke 2 none none, Event.sleep second,
         Event.invoke 3 none none, Event.sleep second,
         Event.exit 0] ∧
      (run mainTask second () (signalDuringCall Signal.SIGTERM 3) 4).trace.tail ≠
        [Event.invoke 1 none none, Event.sleep second,
         Event.invoke 2 none none, Event.sleep second,
         Event.invoke 3 none none,
         Event.exit 0] := by
  decide

/-- C7, the code at the failing input: when SIGTERM is pending at the first
boundary the run ends by `os.Exit(0)` with the subscription still registered and
without the deferred `signal.Stop` in the trace; on the panic path (third call
failing) the deferred `signal.Stop` has run and the subscription is released. -/
theorem subscription_not_released_on_exit :
    ((run mainTask second () (signalAtStart Signal.SIGTERM) 1).status = Status.exited 0 ∧
      (run mainTask second () (signalAtStart Signal.SIGTERM) 1).handlers = notifySignals ∧
      Event.stop ∉ (run mainTask second () (signalAtStart Signal.SIGTERM) 1).trace) ∧
    ((run failOnThird second () quietEnv 3).status = Status.panicked "boom" ∧
      (run failOnThird second () quietEnv 3).handlers = [] ∧
      Event.stop ∈ (run failOnThird second () quietEnv 3).trace) := by
  decide

theorem iterate_control {σ : Type} (fn : ScheduleFunction σ) (sleep sleep' : Duration)
    (env : Env) (s s' : RunState σ) (h : control s = control s') :
    control (iterate fn sleep env s) = control (iterate fn sleep' env s') := by
  obtain ⟨i, calls, task, chan, handlers, trace, status⟩ := s
  obtain ⟨i', calls', task', chan', handlers', trace', status'⟩ := s'
  simp only [control, Prod.mk.injEq] at h
  obtain ⟨rfl, rfl, rfl, rfl, rfl, rfl⟩ := h
  unfold iterate
  cases status with
  | running =>
    cases chan with
    | some x => rfl
    | none =>
      dsimp only
      cases he : (fn task i).2.2 with
      | some e => rfl
      | none => rfl
  | exited c => rfl
  | panicked e => rfl
  | returned => rfl

theorem run_control {σ : Type} (fn : ScheduleFunction σ) (sleep sleep' : Duration) (t0 : σ)
    (env : Env) (n : Nat) :
    control (run fn sleep t0 env n) = control (run fn sleep' t0 env n) := by
  induction n with
  | zero => rfl
  | succ n ih => exact iterate_control fn sleep sleep' env _ _ ih
theorem ended_cause {σ : Type} (fn : ScheduleFunction σ) (sleep : Duration) (t0 : σ)
    (env : Env) (n : Nat) :
    (run fn sleep t0 env n).status ≠ Status.returned ∧
      (∀ c, (run fn sleep t0 env n).status = Status.exited c →
        c = 0 ∧ ∃ k, k < n ∧ (run fn sleep t0 env k).status = Status.running ∧
          ∃ x, (run fn sleep t0 env k).chan = some x) ∧
      (∀ e, (run fn sleep t0 env n).status = Status.panicked e →
        ∃ k, k < n ∧ (run fn sleep t0 env k).status = Status.running ∧
          (run fn sleep t0 env k).chan = none ∧
          (fn (run fn sleep t0 env k).task (run fn sleep t0 env k).i).2.2 = some e) := by
  induction n with
  | zero =>
    refine ⟨?_, ?_, ?_⟩
    · intro h; cases h
    · intro c h; cases h
    · intro e h; cases h
  | succ n ih =>
    by_cases hr : (run fn sleep t0 env n).status = Status.running
    · cases hc : (run fn sleep t0 env n).chan with
      | some x =>
        have h1 : run fn sleep t0 env (n + 1) = _ := iterate_exit fn sleep env _ hr x hc
        rw [h1]
        refine ⟨?_, ?_, ?_⟩
        · intro h; cases h
        · intro c h
          refine ⟨?_, n, Nat.lt_succ_self n, hr, x, hc⟩
          injection h with h
          exact h.symm
        · intro e h; cases h
      | none =>
        cases he : (fn (run fn sleep t0 env n).task (run fn sleep t0 env n).i).2.2 with
        | some e =>
          have h1 : run fn sleep t0 env (n + 1) = _ := iterate_fail fn sleep env _ hr hc e he
          rw [h1]
          refine ⟨?_, ?_, ?_⟩
          · intro h; cases h
          · intro c h; cases h
          · intro e' h
            injection h with h
            exact ⟨n, Nat.lt_succ_self n, hr, hc, by rw [he, h]⟩
        | none =>
          have h1 : (run fn sleep t0 env (n + 1)).status = Status.running := by
            rw [run_succ, iterate_ok fn sleep env _ hr hc he]
            exact hr
          rw [h1]
          refine ⟨?_, ?_, ?_⟩
          · intro h; cases h
          · intro c h; cases h
          · intro e h; cases h
    · rw [run_succ, iterate_done fn sleep env _ hr]
      obtain ⟨a, b, c⟩ := ih
      refine ⟨a, ?_, ?_⟩
      · intro c' h
        obtain ⟨h0, k, hk, rest⟩ := b c' h
        exact ⟨h0, k, Nat.lt_succ_of_lt hk, rest⟩
      · intro e h
        obtain ⟨k, hk, rest⟩ := c e h
        exact ⟨k, Nat.lt_succ_of_lt hk, rest⟩

/-- C8: `run` never returns to its caller. After any number `n` of passes the
status is not a normal return; it is an exit only with code 0 and only after a
pass that found a signal in the channel; it is a panic only after a pass whose
call of `fn` returned that error; and when no subscribed signal ever arrives and
`fn` never fails, the loop is still running after `n` passes, having made `n`
calls. -/
theorem run_never_returns {σ : Type} (fn : ScheduleFunction σ) (sleep : Duration) (t0 : σ)
    (env : Env) (n : Nat) :
    (run fn sleep t0 env n).status ≠ Status.returned ∧
      (∀ c, (run fn sleep t0 env n).status = Status.exited c →
        c = 0 ∧ ∃ k, k < n ∧ (run fn sleep t0 env k).status = Status.running ∧
          ∃ x, (run fn sleep t0 env k).chan = some x) ∧
      (∀ e, (run fn sleep t0 env n).status = Status.panicked e →
        ∃ k, k < n ∧ (run fn sleep t0 env k).status = Status.running ∧
          (run fn sleep t0 env k).chan = none ∧
          (fn (run fn sleep t0 env k).task (run fn sleep t0 env k).i).2.2 = some e) ∧
      (Silent env → (∀ st a, (fn st a).2.2 = none) →
        (run fn sleep t0 env n).status = Status.running ∧
          (run fn sleep t0 env n).calls = n) := by
  obtain ⟨a, b, c⟩ := ended_cause fn sleep t0 env n
  refine ⟨a, b, c, fun hq hf => ?_⟩
  have hr := (running_of_silent fn sleep t0 env hq hf n).1
  exact ⟨hr, calls_of_running fn sleep t0 env n hr⟩

/-- Instance of the preceding theorem: the callback of `main` without signals is
still running after 5 passes and 5 calls; with SIGINT at the start the exit
code is 0. -/
theorem run_never_returns_witness :
    ((run mainTask second () quietEnv 5).status = Status.running ∧
      (run mainTask second () quietEnv 5).calls = 5) ∧
    ((run mainTask second () (signalAtStart Signal.SIGINT) 5).status = Status.exited 0 ∧
      (0 : Int) = 0 ∧ ∃ k, k < 5 ∧
        (run mainTask second () (signalAtStart Signal.SIGINT) k).status = Status.running ∧
        ∃ x, (run mainTask second () (signalAtStart Signal.SIGINT) k).chan = some x) :=
  ⟨(run_never_returns mainTask second () quietEnv 5).2.2.2 silent_quietEnv (fun _ _ => rfl),
   by decide,
   (run_never_returns mainTask second () (signalAtStart Signal.SIGINT) 5).2.1 0 (by decide)⟩

/-- C9: before the loop is entered `run` has subscribed to exactly SIGHUP,
SIGQUIT, SIGTERM, SIGINT and SIGSEGV (a signal outside this list is not relayed
to the channel). If any of the five arrives before the first pass, the first
pass exits with status 0 without calling `fn`; if any of them arrives during a
successful call of `fn` or during the sleep that follows it, the next boundary
exits with status 0 and no further call is made. -/
theorem subscribed_signals_end_run {σ : Type} (fn : ScheduleFunction σ) (sleep : Duration)
    (t0 : σ) (env : Env) :
    ((run fn sleep t0 env 0).trace =
        [Event.notify [Signal.SIGHUP, Signal.SIGQUIT, Signal.SIGTERM, Signal.SIGINT,
          Signal.SIGSEGV]] ∧
      (run fn sleep t0 env 0).handlers =
        [Signal.SIGHUP, Signal.SIGQUIT, Signal.SIGTERM, Signal.SIGINT, Signal.SIGSEGV]) ∧
    (∀ sig c, sig ∉ [Signal.SIGHUP, Signal.SIGQUIT, Signal.SIGTERM, Signal.SIGINT,
        Signal.SIGSEGV] → deliver (run fn sleep t0 env 0).handlers c sig = c) ∧
    ∀ sig, sig ∈ [Signal.SIGHUP, Signal.SIGQUIT, Signal.SIGTERM, Signal.SIGINT,
        Signal.SIGSEGV] →
      (sig ∈ env.atStart → ∀ m,
        (run fn sleep t0 env (1 + m)).status = Status.exited 0 ∧
        (run fn sleep t0 env (1 + m)).trace = [Event.notify notifySignals, Event.exit 0]) ∧
      (∀ n, (run fn sleep t0 env n).status = Status.running →
        (run fn sleep t0 env n).chan = none →
        (fn (run fn sleep t0 env n).task (run fn sleep t0 env n).i).2.2 = none →
        sig ∈ env.duringCall (n + 1) ∨ sig ∈ env.duringSleep (n + 1) → ∀ m,
          (run fn sleep t0 env (n + 2 + m)).status = Status.exited 0 ∧
          (run fn sleep t0 env (n + 2 + m)).calls = n + 1) := by
  refine ⟨⟨rfl, rfl⟩, ?_, ?_⟩
  · intro sig c hs
    have hs' : sig ∉ notifySignals := hs
    show deliver notifySignals c sig = c
    unfold deliver
    rw [if_neg hs']
  · intro sig hsig
    refine ⟨fun hd m => ?_, fun n hr hc he hd m => ?_⟩
    · obtain ⟨x, hx⟩ := pending_at_start fn sleep t0 env sig hsig hd
      obtain ⟨hs, htr, _⟩ := exit_of_pending fn sleep t0 env 0 x rfl hx m
      have e : 1 + m = 0 + 1 + m := by omega
      rw [e]
      exact ⟨hs, htr⟩
    · obtain ⟨hr1, ⟨x, hx⟩, _⟩ :=
        pending_after_iteration fn sleep t0 env n sig hsig hr hc he hd
      obtain ⟨hs, _, hcl⟩ := exit_of_pending fn sleep t0 env (n + 1) x hr1 hx m
      have e : n + 2 + m = n + 1 + 1 + m := by omega
      rw [e]
      exact ⟨hs, by rw [hcl]; exact calls_of_running fn sleep t0 env (n + 1) hr1⟩

/-- Instance of the preceding theorem for the fault signal: SIGSEGV
arrives during the sleep after the first call; the second boundary exits with
status 0 after exactly one call. -/
theorem subscribed_signals_end_run_witness :
    (run mainTask second () (signalDuringSleep Signal.SIGSEGV 1) (0 + 2 + 3)).status =
        Status.exited 0 ∧
      (run mainTask second () (signalDuringSleep Signal.SIGSEGV 1) (0 + 2 + 3)).calls = 0 + 1 :=
  (subscribed_signals_end_run mainTask second () (signalDuringSleep Signal.SIGSEGV 1)).2.2
    Signal.SIGSEGV (by decide) |>.2 0 (by decide) (by decide) (by decide)
    (Or.inr (by decide)) 3

/-- C10: `run` does not validate durations. For every default interval, of any
sign, if no signal is pending at the first boundary and the first call succeeds,
the first pass calls `fn` with 1 and then calls `time.Sleep` with the default
interval itself when no override was returned, and with the returned override
itself otherwise; the loop is still running. Moreover the status and the number
of calls after any number of passes do not depend on the default interval. -/
theorem interval_not_validated {σ : Type} (fn : ScheduleFunction σ) (sleep : Duration)
    (t0 : σ) (env : Env)
    (hc : (run fn sleep t0 env 0).chan = none) (he : (fn t0 1).2.2 = none) :
    (run fn sleep t0 env 1).status = Status.running ∧
      ((fn t0 1).2.1 = none → (run fn sleep t0 env 1).trace =
        [Event.notify notifySignals, Event.invoke 1 none none, Event.sleep sleep]) ∧
      (∀ d, (fn t0 1).2.1 = some d → (run fn sleep t0 env 1).trace =
        [Event.notify notifySignals, Event.invoke 1 (some d) none, Event.sleep d]) ∧
      ∀ sleep' n, (run fn sleep' t0 env n).status = (run fn sleep t0 env n).status ∧
        (run fn sleep' t0 env n).calls = (run fn sleep t0 env n).calls := by
  have h1 : run fn sleep t0 env 1 = _ := iterate_ok fn sleep env (run fn sleep t0 env 0) rfl hc he
  refine ⟨?_, ?_, ?_, ?_⟩
  · rw [h1]; rfl
  · intro hn
    rw [h1]
    show [Event.notify notifySignals] ++
      [Event.invoke 1 (fn t0 1).2.1 none, Event.sleep ((fn t0 1).2.1.getD sleep)] = _
    rw [hn]
    rfl
  · intro d hd
    rw [h1]
    show [Event.notify notifySignals] ++
      [Event.invoke 1 (fn t0 1).2.1 none, Event.sleep ((fn t0 1).2.1.getD sleep)] = _
    rw [hd]
    rfl
  · intro sleep' n
    have h := run_control fn sleep' sleep t0 env n
    simp only [control, Prod.mk.injEq] at h
    exact ⟨h.2.2.2.2.2, h.2.1⟩

/-- Instance of the preceding theorem with a negative default interval: the
sleep is called with that negative value. -/
theorem interval_not_validated_witness :
    (run mainTask (-7) () quietEnv 1).status = Status.running ∧
      (run mainTask (-7) () quietEnv 1).trace =
        [Event.notify notifySignals, Event.invoke 1 none none, Event.sleep (-7)] :=
  ⟨(interval_not_validated mainTask (-7) () quietEnv (by decide) (by decide)).1,
   (interval_not_validated mainTask (-7) () quietEnv (by decide) (by decide)).2.1 rfl⟩

/-- With a zero default interval and a negative override the values reach
`time.Sleep` unchanged and the loop goes on. -/
theorem zero_interval_and_negative_override :
    (run mainTask 0 () quietEnv 2).trace =
        [Event.notify notifySignals, Event.invoke 1 none none, Event.sleep 0,
         Event.invoke 2 none none, Event.sleep 0] ∧
      (run negativeOverride second () quietEnv 2).trace =
        [Event.notify notifySignals, Event.invoke 1 (some (-3)) none, Event.sleep (-3),
         Event.invoke 2 (some (-3)) none, Event.sleep (-3)] ∧
      (run negativeOverride second () quietEnv 2).status = Status.running := by
  decide

/-- The override scenario in full: the first delay is the override, the later
ones are the default interval. -/
theorem override_scenario_trace :
    (run overrideOnce second () quietEnv 3).trace =
      [Event.notify notifySignals,
       Event.invoke 1 (some (200 * millisecond)) none, Event.sleep (200 * millisecond),
       Event.invoke 2 none none, Event.sleep second,
       Event.invoke 3 none none, Event.sleep second] := by
  decide

end Scheduler
